import Mathlib

/-!
Verification of the identifier generation and obfuscation subsystem of the
kitexcommon repository: the int64 obfuscator (utils), the Snowflake-style
id worker (idworker), and the flow-number generator (tools).

Go machine integers are embedded as mathematical integers with explicit
reduction modulo 2^64: a Go `uint64` value is a `Nat` below 2^64, a Go
`int64` value is an `Int` in [-2^63, 2^63), and every Go arithmetic or
bitwise operation that can wrap is modelled by converting to the 64-bit
unsigned bit pattern (`u64`), operating on `Nat`, and reinterpreting the
result as signed (`toInt64`).
-/

namespace Kitex

/-- The unsigned 64-bit pattern of a Go `int64` value (two's complement). -/
def u64 (i : Int) : Nat := (i % 18446744073709551616).toNat

/-- Reinterpret an unsigned 64-bit pattern as a signed Go `int64` value. -/
def toInt64 (n : Nat) : Int :=
  if n < 9223372036854775808 then (n : Int) else (n : Int) - 18446744073709551616

/-- Reduce an integer to the Go `int64` range (wrap-around overflow). -/
def wrap64 (i : Int) : Int := toInt64 (u64 i)

/-- The value is representable as a Go `int64`. -/
abbrev validInt64 (i : Int) : Prop :=
  -9223372036854775808 ≤ i ∧ i < 9223372036854775808

/-- Go `int64` bitwise XOR. -/
def goXor64 (a b : Int) : Int := toInt64 (u64 a ^^^ u64 b)

/-- Go `int64` bitwise OR. -/
def goOr64 (a b : Int) : Int := toInt64 (u64 a ||| u64 b)

/-- Go `int64` bitwise AND. -/
def goAnd64 (a b : Int) : Int := toInt64 (u64 a &&& u64 b)

/-- Go `int64` left shift by a non-negative count (bits above 63 are lost). -/
def shl64 (a : Int) (s : Nat) : Int :=
  toInt64 (u64 a <<< s % 18446744073709551616)

lemma u64_lt (i : Int) : u64 i < 18446744073709551616 := by
  unfold u64; omega

lemma u64_toInt64 {n : Nat} (h : n < 18446744073709551616) : u64 (toInt64 n) = n := by
  unfold u64 toInt64
  split <;> omega

lemma toInt64_u64 {i : Int} (h : validInt64 i) : toInt64 (u64 i) = i := by
  unfold u64 toInt64
  split <;> omega

lemma validInt64_toInt64 (n : Nat) : validInt64 (toInt64 n) ∨ 18446744073709551616 ≤ n := by
  unfold toInt64
  split <;> omega

lemma validInt64_toInt64_of_lt {n : Nat} (h : n < 18446744073709551616) :
    validInt64 (toInt64 n) := by
  unfold toInt64
  split <;> constructor <;> omega

lemma u64_ofNat {i : Int} (h0 : 0 ≤ i) (h1 : i < 18446744073709551616) :
    u64 i = i.toNat := by
  unfold u64; omega

lemma wrap64_eq_self {i : Int} (h : validInt64 i) : wrap64 i = i := toInt64_u64 h

lemma toInt64_inj {m n : Nat} (hm : m < 18446744073709551616)
    (hn : n < 18446744073709551616) (h : toInt64 m = toInt64 n) : m = n := by
  unfold toInt64 at h
  split at h <;> split at h <;> omega

/-! ## The integer obfuscator (utils package) -/

/-- The fixed bit-position permutation table of the obfuscator
(a constant random arrangement of 0..63). -/
def permutation : List Nat :=
  [7, 22, 13, 8, 30, 24, 17, 2,
   28, 19, 11, 29, 5, 20, 15, 31,
   0, 12, 25, 21, 4, 10, 16, 1,
   27, 23, 6, 14, 9, 3, 26, 18,
   45, 58, 41, 50, 62, 56, 49, 34,
   60, 51, 43, 61, 37, 52, 47, 63,
   32, 44, 57, 53, 36, 42, 48, 33,
   59, 55, 38, 46, 40, 35, 54, 39]

/-- Entry `i` of the permutation table. -/
def permAt (i : Nat) : Nat := permutation.getD i 0

/-- The inverse permutation table, built exactly as the package `init`
function does: for every `i`, entry `permutation[i]` of the table is set
to `i`. -/
def InversePermutation : List Nat :=
  (List.range 64).foldl (fun acc i => acc.set (permAt i) i) (List.replicate 64 0)

/-- Entry `i` of the inverse permutation table. -/
def invAt (i : Nat) : Nat := InversePermutation.getD i 0

/-- Bit permutation as implemented by `permuteBitsFast`: for each input bit
position `i` in 0..63, bit `i` of `value` is placed at output bit position
`p i` (`result |= ((value >> i) & 1) << p[i]`). -/
def permuteBitsFast (value : Nat) (p : Nat → Nat) : Nat :=
  (List.range 64).foldl (fun result i => result ||| (((value >>> i) &&& 1) <<< p i)) 0

lemma permAt_lt : ∀ i, i < 64 → permAt i < 64 := by decide

lemma invAt_lt : ∀ i, i < 64 → invAt i < 64 := by decide

lemma invAt_permAt : ∀ i, i < 64 → invAt (permAt i) = i := by decide

lemma permAt_invAt : ∀ i, i < 64 → permAt (invAt i) = i := by decide

lemma foldl_or_testBit (l : List Nat) (f : Nat → Nat) (acc j : Nat) :
    (l.foldl (fun r i => r ||| f i) acc).testBit j
      = (acc.testBit j || l.any (fun i => (f i).testBit j)) := by
  induction l generalizing acc with
  | nil => simp
  | cons a t ih =>
      simp only [List.foldl_cons, List.any_cons, ih, Nat.testBit_or, Bool.or_assoc]

lemma or_term_testBit (v i k j : Nat) :
    (((v >>> i) &&& 1) <<< k).testBit j = (v.testBit i && decide (k = j)) := by
  rw [Nat.testBit_shiftLeft]
  rcases Nat.lt_or_ge j k with h | h
  · have h1 : ¬ (j ≥ k) := by omega
    have h2 : k ≠ j := by omega
    simp [h1, h2]
  · have h1 : j ≥ k := h
    rw [Nat.and_one_is_mod]
    have : (v >>> i) % 2 = (v >>> i) % 2 ^ 1 := by norm_num
    rw [this, Nat.testBit_mod_two_pow, Nat.testBit_shiftRight]
    by_cases h2 : j = k
    · subst h2
      simp [Nat.le_refl]
    · have h3 : ¬ (j - k < 1) := by omega
      have h4 : k ≠ j := fun hh => h2 hh.symm
      simp [h1, h3, h4]

lemma permuteBitsFast_testBit (v : Nat) (p : Nat → Nat) (j : Nat) :
    (permuteBitsFast v p).testBit j
      = (List.range 64).any (fun i => v.testBit i && decide (p i = j)) := by
  unfold permuteBitsFast
  rw [foldl_or_testBit]
  simp only [Nat.zero_testBit, Bool.false_or, or_term_testBit]

lemma permuteBitsFast_lt (v : Nat) (p : Nat → Nat) (hp : ∀ i, i < 64 → p i < 64) :
    permuteBitsFast v p < 18446744073709551616 := by
  have h64 : (18446744073709551616 : Nat) = 2 ^ 64 := by norm_num
  rw [h64]
  apply Nat.lt_pow_two_of_testBit
  intro j hj
  rw [permuteBitsFast_testBit]
  simp only [List.any_eq_false, List.mem_range, Bool.and_eq_true, decide_eq_true_eq,
    not_and]
  intro i hi hbit
  intro hpij
  exact absurd hpij (by have := hp i hi; omega)

lemma permute_roundTrip {t : Nat} (ht : t < 18446744073709551616) :
    permuteBitsFast (permuteBitsFast t permAt) invAt = t := by
  have h64 : (18446744073709551616 : Nat) = 2 ^ 64 := by norm_num
  apply Nat.eq_of_testBit_eq
  intro j
  rw [permuteBitsFast_testBit]
  by_cases hj : j < 64
  · rcases hb : t.testBit j with _ | _
    · simp only [List.any_eq_false, List.mem_range, Bool.and_eq_true, decide_eq_true_eq,
        not_and, hb]
      intro i hi hbit hinv
      rw [permuteBitsFast_testBit] at hbit
      simp only [List.any_eq_true, List.mem_range, Bool.and_eq_true, decide_eq_true_eq] at hbit
      obtain ⟨k, hk, hbk, hpk⟩ := hbit
      have hkj : k = j := by
        have h1 := invAt_permAt k hk
        rw [hpk] at h1
        rw [hinv] at h1
        omega
      exact absurd hbk (by rw [hkj, hb]; simp)
    · simp only [List.any_eq_true, List.mem_range, Bool.and_eq_true, decide_eq_true_eq]
      refine ⟨permAt j, permAt_lt j hj, ?_, invAt_permAt j hj⟩
      rw [permuteBitsFast_testBit]
      simp only [List.any_eq_true, List.mem_range, Bool.and_eq_true, decide_eq_true_eq]
      exact ⟨j, hj, hb, rfl⟩
  · have hlhs : (List.range 64).any
        (fun i => (permuteBitsFast t permAt).testBit i && decide (invAt i = j)) = false := by
      simp only [List.any_eq_false, List.mem_range, Bool.and_eq_true, decide_eq_true_eq,
        not_and]
      intro i hi _ hinv
      exact absurd hinv (by have := invAt_lt i hi; omega)
    rw [hlhs]
    symm
    apply Nat.testBit_lt_two_pow
    calc t < 2 ^ 64 := by omega
    _ ≤ 2 ^ j := Nat.pow_le_pow_right (by norm_num) (by omega)

/-- The obfuscator: a single XOR key fixed at construction. -/
structure IntObfuscator where
  xorKey : Int
deriving DecidableEq

/-- Constructor `NewObfuscator`: a zero key is replaced by the documented
default constant `0x5a5a5a5a5a5a5a5a`. -/
def NewObfuscator (xorKey : Int) : IntObfuscator :=
  if xorKey = 0 then ⟨0x5a5a5a5a5a5a5a5a⟩ else ⟨xorKey⟩

/-- `Obfuscate`: XOR with the key first (`t := uint64(id ^ o.xorKey)`), then
apply the bit permutation, reinterpreting the result as signed. -/
def Obfuscate (o : IntObfuscator) (id : Int) : Int :=
  toInt64 (permuteBitsFast (u64 (goXor64 id o.xorKey)) permAt)

/-- `Deobfuscate`: apply the inverse permutation first
(`t := permuteBitsFast(uint64(code), &InversePermutation)`), then XOR with
the key (`int64(t) ^ o.xorKey`). -/
def Deobfuscate (o : IntObfuscator) (code : Int) : Int :=
  goXor64 (toInt64 (permuteBitsFast (u64 code) invAt)) o.xorKey

lemma u64_goXor64 (a b : Int) : u64 (goXor64 a b) = u64 a ^^^ u64 b := by
  unfold goXor64
  exact u64_toInt64 (by
    have h64 : (18446744073709551616 : Nat) = 2 ^ 64 := by norm_num
    rw [h64]
    exact Nat.xor_lt_two_pow (h64 ▸ u64_lt a) (h64 ▸ u64_lt b))

lemma xor_lt_64 (a b : Nat) (ha : a < 18446744073709551616)
    (hb : b < 18446744073709551616) : a ^^^ b < 18446744073709551616 := by
  have h64 : (18446744073709551616 : Nat) = 2 ^ 64 := by norm_num
  rw [h64] at *
  exact Nat.xor_lt_two_pow ha hb

/-- Round trip of the obfuscator for any key and any representable input. -/
lemma deobfuscate_obfuscate (o : IntObfuscator) {id : Int} (hid : validInt64 id) :
    Deobfuscate o (Obfuscate o id) = id := by
  unfold Deobfuscate Obfuscate
  set a := u64 id with ha
  set b := u64 o.xorKey with hb
  have hab : u64 (goXor64 id o.xorKey) = a ^^^ b := u64_goXor64 id o.xorKey
  rw [hab]
  have hxlt : a ^^^ b < 18446744073709551616 := xor_lt_64 a b (u64_lt id) (u64_lt o.xorKey)
  have hplt : permuteBitsFast (a ^^^ b) permAt < 18446744073709551616 :=
    permuteBitsFast_lt _ _ permAt_lt
  rw [u64_toInt64 hplt, permute_roundTrip hxlt]
  unfold goXor64
  rw [u64_toInt64 hxlt, ← hb, Nat.xor_assoc, Nat.xor_self, Nat.xor_zero, ha]
  exact toInt64_u64 hid

/-- The stored key is never zero after construction. -/
lemma newObfuscator_key_ne_zero (k : Int) : (NewObfuscator k).xorKey ≠ 0 := by
  unfold NewObfuscator
  split
  · norm_num
  · assumption

lemma newObfuscator_key_valid {k : Int} (hk : validInt64 k) :
    validInt64 (NewObfuscator k).xorKey := by
  unfold NewObfuscator
  split
  · constructor <;> norm_num
  · exact hk

lemma newObfuscator_of_ne_zero {k : Int} (hk : k ≠ 0) : NewObfuscator k = ⟨k⟩ := by
  unfold NewObfuscator
  rw [if_neg hk]

/-- Bit permutation as read literally from the specification sentence for the
obfuscation step: for each of the 64 output bit positions `j`, output bit `j`
is set from input bit position `permutation[j]`. Stated from the spec wording
only, for comparison with the implementation `permuteBitsFast`. -/
def permuteBitsSpecC3 (value : Nat) : Nat :=
  (List.range 64).foldl (fun result j => result ||| (((value >>> permAt j) &&& 1) <<< j)) 0

/-- Obfuscate as read literally from the specification sentence: XOR with the
key, then the spec-reading permutation, reinterpreted as signed. -/
def ObfuscateSpecC3 (o : IntObfuscator) (id : Int) : Int :=
  toInt64 (permuteBitsSpecC3 (u64 (goXor64 id o.xorKey)))

/-- What the implementation actually does with bit positions: output bit
`permutation[j]` equals input bit `j` of the xored pattern. -/
lemma obfuscate_testBit (o : IntObfuscator) (id : Int) {j : Nat} (hj : j < 64) :
    (u64 (Obfuscate o id)).testBit (permAt j)
      = (u64 (goXor64 id o.xorKey)).testBit j := by
  unfold Obfuscate
  rw [u64_toInt64 (permuteBitsFast_lt _ _ permAt_lt), permuteBitsFast_testBit]
  rcases hb : (u64 (goXor64 id o.xorKey)).testBit j with _ | _
  · simp only [List.any_eq_false, List.mem_range, Bool.and_eq_true, decide_eq_true_eq,
      not_and]
    intro i hi hbit hpi
    have hij : i = j := by
      have h1 := invAt_permAt i hi
      have h2 := invAt_permAt j hj
      rw [hpi, h2] at h1
      exact h1.symm
    rw [hij, hb] at hbit
    exact absurd hbit (by simp)
  · simp only [List.any_eq_true, List.mem_range, Bool.and_eq_true, decide_eq_true_eq]
    exact ⟨j, hj, hb, rfl⟩

/-- Applying the inverse permutation to a ciphertext pattern recovers the
xored pattern. -/
lemma invPermute_obfuscate (o : IntObfuscator) (p : Int) :
    permuteBitsFast (u64 (Obfuscate o p)) invAt = u64 p ^^^ u64 o.xorKey := by
  unfold Obfuscate
  rw [u64_goXor64, u64_toInt64 (permuteBitsFast_lt _ _ permAt_lt)]
  exact permute_roundTrip (xor_lt_64 _ _ (u64_lt p) (u64_lt o.xorKey))

/-- Key recovery from one known plaintext/ciphertext pair. -/
lemma key_recovery (o : IntObfuscator) (p : Int)
    (hk : validInt64 o.xorKey) :
    goXor64 (toInt64 (permuteBitsFast (u64 (Obfuscate o p)) invAt)) p = o.xorKey := by
  rw [invPermute_obfuscate]
  unfold goXor64
  rw [u64_toInt64 (xor_lt_64 _ _ (u64_lt p) (u64_lt o.xorKey))]
  rw [Nat.xor_comm (u64 p) (u64 o.xorKey), Nat.xor_assoc, Nat.xor_self, Nat.xor_zero]
  exact toInt64_u64 hk

lemma permute_inj {a b : Nat} (ha : a < 18446744073709551616)
    (hb : b < 18446744073709551616)
    (h : permuteBitsFast a permAt = permuteBitsFast b permAt) : a = b := by
  have h1 := permute_roundTrip ha
  have h2 := permute_roundTrip hb
  rw [← h1, ← h2, h]

lemma xor_cancel_left {x a b : Nat} (h : x ^^^ a = x ^^^ b) : a = b := by
  have : x ^^^ (x ^^^ a) = x ^^^ (x ^^^ b) := by rw [h]
  rwa [← Nat.xor_assoc, ← Nat.xor_assoc, Nat.xor_self, Nat.zero_xor, Nat.zero_xor] at this

lemma u64_inj {a b : Int} (ha : validInt64 a) (hb : validInt64 b)
    (h : u64 a = u64 b) : a = b := by
  rw [← toInt64_u64 ha, ← toInt64_u64 hb, h]

/-- Obfuscation outputs under distinct representable keys differ on every
input. -/
lemma obfuscate_key_inj {k1 k2 : Int} (x : Int) (h1 : validInt64 k1)
    (h2 : validInt64 k2) (hne : k1 ≠ k2) :
    Obfuscate ⟨k1⟩ x ≠ Obfuscate ⟨k2⟩ x := by
  intro h
  apply hne
  unfold Obfuscate at h
  simp only at h
  rw [u64_goXor64, u64_goXor64] at h
  have hp1 : permuteBitsFast (u64 x ^^^ u64 k1) permAt < 18446744073709551616 :=
    permuteBitsFast_lt _ _ permAt_lt
  have hp2 : permuteBitsFast (u64 x ^^^ u64 k2) permAt < 18446744073709551616 :=
    permuteBitsFast_lt _ _ permAt_lt
  have h3 := toInt64_inj hp1 hp2 h
  have h4 := permute_inj (xor_lt_64 _ _ (u64_lt x) (u64_lt k1))
    (xor_lt_64 _ _ (u64_lt x) (u64_lt k2)) h3
  exact u64_inj h1 h2 (xor_cancel_left h4)

/-- C1: for every representable int64 value `x` and every obfuscator built by
`NewObfuscator` with any key, `Deobfuscate (Obfuscate x) = x`. -/
theorem c1_obfuscator_roundTrip (key id : Int) (hid : validInt64 id) :
    Deobfuscate (NewObfuscator key) (Obfuscate (NewObfuscator key) id) = id :=
  deobfuscate_obfuscate (NewObfuscator key) hid

/-- Witness for C1 at `INT64_MIN` with the zero key (which selects the
default key). -/
theorem c1_obfuscator_roundTrip_witness :
    validInt64 (-9223372036854775808) ∧
      Deobfuscate (NewObfuscator 0) (Obfuscate (NewObfuscator 0) (-9223372036854775808))
        = -9223372036854775808 :=
  ⟨by decide, c1_obfuscator_roundTrip 0 (-9223372036854775808) (by decide)⟩

/-- C3 counterexample: the claim reads the permutation in the wrong
direction. The implementation sends input bit `i` to output bit
`permutation[i]`, so on the pattern `1` (key `1`, input `0`) it produces
`2^permutation[0] = 2^7 = 128`, while the claimed reading (output bit `j`
taken from input bit `permutation[j]`) produces `2^16 = 65536` because
`permutation[16] = 0`. -/
theorem c3_obfuscate_direction_counterexample :
    Obfuscate (NewObfuscator 1) 0 = 128 ∧
      ObfuscateSpecC3 (NewObfuscator 1) 0 = 65536 ∧
      Obfuscate (NewObfuscator 1) 0 ≠ ObfuscateSpecC3 (NewObfuscator 1) 0 := by
  refine ⟨by decide, by decide, by decide⟩

/-- C3 amended: `Obfuscate` XORs the id with the stored key and then applies
the fixed bit permutation such that for each of the 64 input bit positions
`j`, output bit position `permutation[j]` is set from input bit `j`
(equivalently, output bit `i` is set from input bit `InversePermutation[i]`);
the result is reinterpreted as signed int64. -/
theorem c3_obfuscate_direction_amended (o : IntObfuscator) (id : Int) (j : Nat)
    (hj : j < 64) :
    (u64 (Obfuscate o id)).testBit (permAt j)
      = (u64 (goXor64 id o.xorKey)).testBit j :=
  obfuscate_testBit o id hj

/-- Witness for the amended C3 at a concrete obfuscator, input and bit. -/
theorem c3_obfuscate_direction_amended_witness :
    (0 : Nat) < 64 ∧
      (u64 (Obfuscate (NewObfuscator 1) 5)).testBit (permAt 0)
        = (u64 (goXor64 5 (NewObfuscator 1).xorKey)).testBit 0 :=
  ⟨by decide, c3_obfuscate_direction_amended (NewObfuscator 1) 5 0 (by decide)⟩

/-- C8: with `c = Obfuscate p` under a key constructed from `k`, applying the
inverse permutation to `c` and XOR-ing with `p` recovers the stored key
exactly, and an obfuscator built from the recovered key agrees with the
original on every input `q`. -/
theorem c8_obfuscator_key_recovery (k p q : Int) (hk : validInt64 k) :
    goXor64 (toInt64 (permuteBitsFast (u64 (Obfuscate (NewObfuscator k) p)) invAt)) p
        = (NewObfuscator k).xorKey ∧
      Obfuscate (NewObfuscator
          (goXor64 (toInt64 (permuteBitsFast (u64 (Obfuscate (NewObfuscator k) p)) invAt)) p)) q
        = Obfuscate (NewObfuscator k) q := by
  have hkv : validInt64 (NewObfuscator k).xorKey := newObfuscator_key_valid hk
  have hg := key_recovery (NewObfuscator k) p hkv
  refine ⟨hg, ?_⟩
  rw [hg, newObfuscator_of_ne_zero (newObfuscator_key_ne_zero k)]

/-- Witness for C8 at concrete key, plaintext and second plaintext. -/
theorem c8_obfuscator_key_recovery_witness :
    validInt64 3 ∧
      (goXor64 (toInt64 (permuteBitsFast (u64 (Obfuscate (NewObfuscator 3) 7)) invAt)) 7
          = (NewObfuscator 3).xorKey ∧
        Obfuscate (NewObfuscator
            (goXor64 (toInt64 (permuteBitsFast (u64 (Obfuscate (NewObfuscator 3) 7)) invAt)) 7)) 9
          = Obfuscate (NewObfuscator 3) 9) :=
  ⟨by decide, c8_obfuscator_key_recovery 3 7 9 (by decide)⟩

/-- C10: two obfuscator instances whose stored keys are distinct
representable int64 values produce different outputs on every input. -/
theorem c10_obfuscate_key_sensitivity (k1 k2 x : Int) (h1 : validInt64 k1)
    (h2 : validInt64 k2) (hne : k1 ≠ k2) :
    Obfuscate ⟨k1⟩ x ≠ Obfuscate ⟨k2⟩ x :=
  obfuscate_key_inj x h1 h2 hne

/-- Witness for C10 at concrete distinct keys and a concrete input. -/
theorem c10_obfuscate_key_sensitivity_witness :
    validInt64 2 ∧ validInt64 5 ∧ (2 : Int) ≠ 5 ∧
      Obfuscate ⟨2⟩ 11 ≠ Obfuscate ⟨5⟩ 11 :=
  ⟨by decide, by decide, by decide,
    c10_obfuscate_key_sensitivity 2 5 11 (by decide) (by decide) (by decide)⟩

/-! ## The Snowflake-style id worker (idworker package)

`NextId` reads the wall clock; the embedding passes the observed time in as
the argument `now` (milliseconds since the Unix epoch).  The busy-wait
`tilNextMillis` is modelled by the argument `tspin`: the loop returns the
first observed time strictly greater than `lastTimestamp`, so whenever the
spin path is taken the model uses `tspin` together with the side condition
`now < tspin` (at that point `lastTimestamp = now`). -/

/-- Mutable and configured state of an `IdWorker`, with the same fields as
the Go struct (the mutex is omitted: sequential calls are modelled). -/
structure IdWorker where
  startTime : Int
  workerIdBits : Nat
  datacenterIdBits : Nat
  maxWorkerId : Int
  maxDatacenterId : Int
  sequenceBits : Nat
  workerIdLeftShift : Nat
  datacenterIdLeftShift : Nat
  timestampLeftShift : Nat
  sequenceMask : Int
  workerId : Int
  datacenterId : Int
  sequence : Int
  lastTimestamp : Int
  signMask : Int
deriving DecidableEq

/-- `InitIdWorker`: computes all derived constants exactly as the source
does (`baseValue ^ (baseValue << bits)` and so on) and validates the worker
and datacenter ids after assigning them. -/
def initIdWorker (workerId datacenterId : Int) : Except String IdWorker :=
  let baseValue : Int := -1
  let workerIdBits : Nat := 5
  let datacenterIdBits : Nat := 5
  let maxWorkerId : Int := goXor64 baseValue (shl64 baseValue workerIdBits)
  let maxDatacenterId : Int := goXor64 baseValue (shl64 baseValue datacenterIdBits)
  let sequenceBits : Nat := 12
  let workerIdLeftShift : Nat := sequenceBits
  let datacenterIdLeftShift : Nat := workerIdBits + workerIdLeftShift
  let timestampLeftShift : Nat := datacenterIdBits + datacenterIdLeftShift
  let sequenceMask : Int := goXor64 baseValue (shl64 baseValue sequenceBits)
  let iw : IdWorker :=
    { startTime := 1463834116272
      workerIdBits := workerIdBits
      datacenterIdBits := datacenterIdBits
      maxWorkerId := maxWorkerId
      maxDatacenterId := maxDatacenterId
      sequenceBits := sequenceBits
      workerIdLeftShift := workerIdLeftShift
      datacenterIdLeftShift := datacenterIdLeftShift
      timestampLeftShift := timestampLeftShift
      sequenceMask := sequenceMask
      workerId := workerId
      datacenterId := datacenterId
      sequence := 0
      lastTimestamp := -1
      -- signMask = ^baseValue + 1, with ^x the Go bitwise NOT, i.e. x XOR -1
      signMask := wrap64 (goXor64 baseValue (-1) + 1) }
  if workerId < 0 ∨ workerId > maxWorkerId then
    Except.error ("workerId[" ++ toString workerId
      ++ "] is less than 0 or greater than maxWorkerId[" ++ toString maxWorkerId ++ "]")
  else if datacenterId < 0 ∨ datacenterId > maxDatacenterId then
    Except.error ("datacenterId[" ++ toString datacenterId
      ++ "] is less than 0 or greater than maxDatacenterId[" ++ toString maxDatacenterId ++ "]")
  else Except.ok iw

/-- One `NextId` call: returns the Go pair (id, error) together with the
updated receiver.  `now` is the observed current time in milliseconds and
`tspin` the time observed when `tilNextMillis` returns. -/
def nextId (iw : IdWorker) (now tspin : Int) : Int × Option String × IdWorker :=
  if now < iw.lastTimestamp then
    (-1, some ("Clock moved backwards.  Refusing to generate id for "
      ++ toString (iw.lastTimestamp - now) ++ " milliseconds"), iw)
  else
    let ts :=
      if now = iw.lastTimestamp then
        let s := goAnd64 (iw.sequence + 1) iw.sequenceMask
        if s = 0 then (tspin, (0 : Int)) else (now, s)
      else (now, (0 : Int))
    let iw' := { iw with sequence := ts.2, lastTimestamp := ts.1 }
    let id0 :=
      goOr64 (goOr64 (goOr64 (shl64 (ts.1 - iw.startTime) iw.timestampLeftShift)
        (shl64 iw.datacenterId iw.datacenterIdLeftShift))
        (shl64 iw.workerId iw.workerIdLeftShift)) ts.2
    ((if id0 < 0 then wrap64 (-id0) else id0), none, iw')

/-- Sequential runs of `NextId`; each call supplies its observed `now` and
spin result `tspin`, and the returned list carries each call's (id, error)
pair. -/
def runNextIds (iw : IdWorker) : List (Int × Int) → List (Int × Option String) × IdWorker
  | [] => ([], iw)
  | c :: rest =>
      let r := nextId iw c.1 c.2
      let rr := runNextIds r.2.2 rest
      ((r.1, r.2.1) :: rr.1, rr.2)

/-- C4: `InitIdWorker` fails exactly when a parameter lies outside [0,31];
in particular the six enumerated calls behave as claimed. -/
theorem c4_init_range_validation :
    (∀ w d : Int,
      (initIdWorker w d).isOk = true ↔ (0 ≤ w ∧ w ≤ 31 ∧ 0 ≤ d ∧ d ≤ 31)) ∧
    (initIdWorker (-1) 0).isOk = false ∧
    (initIdWorker 32 0).isOk = false ∧
    (initIdWorker 0 (-1)).isOk = false ∧
    (initIdWorker 0 32).isOk = false ∧
    (initIdWorker 0 0).isOk = true ∧
    (initIdWorker 31 31).isOk = true := by
  refine ⟨?_, by decide, by decide, by decide, by decide, by decide, by decide⟩
  intro w d
  have hmax : goXor64 (-1) (shl64 (-1) 5) = 31 := by decide
  have herr : ∀ e : String, (Except.error e : Except String IdWorker).isOk = false :=
    fun _ => rfl
  have hok : ∀ x : IdWorker, (Except.ok x : Except String IdWorker).isOk = true :=
    fun _ => rfl
  simp only [initIdWorker, hmax]
  split_ifs with h1 h2
  · rw [herr]
    constructor
    · intro h; exact absurd h (by simp)
    · intro h; omega
  · rw [herr]
    constructor
    · intro h; exact absurd h (by simp)
    · intro h; omega
  · rw [hok]
    constructor
    · intro _; omega
    · intro _; rfl

/-- C6: when the observed time is behind `lastTimestamp`, `NextId` returns a
clock-moved-backward error whose message carries the exact magnitude
`lastTimestamp - now`, and the result does not depend on the spin-wait
observation at all (no blocking, no spinning). -/
theorem c6_clock_backwards_error (iw : IdWorker) (now tspin tspin' : Int)
    (h : now < iw.lastTimestamp) :
    (nextId iw now tspin).2.1
        = some ("Clock moved backwards.  Refusing to generate id for "
          ++ toString (iw.lastTimestamp - now) ++ " milliseconds") ∧
      nextId iw now tspin = nextId iw now tspin' := by
  unfold nextId
  rw [if_pos h, if_pos h]
  exact ⟨rfl, rfl⟩

/-- Witness for C6 at a concrete worker state and a concrete regressed
clock reading. -/
theorem c6_clock_backwards_error_witness :
    (40 : Int) < (⟨0, 0, 0, 0, 0, 0, 0, 0, 0, 0, 0, 0, 0, 100, 0⟩ : IdWorker).lastTimestamp ∧
      ((nextId ⟨0, 0, 0, 0, 0, 0, 0, 0, 0, 0, 0, 0, 0, 100, 0⟩ 40 7).2.1
          = some ("Clock moved backwards.  Refusing to generate id for "
            ++ toString ((⟨0, 0, 0, 0, 0, 0, 0, 0, 0, 0, 0, 0, 0, 100, 0⟩ : IdWorker).lastTimestamp - 40)
            ++ " milliseconds") ∧
        nextId ⟨0, 0, 0, 0, 0, 0, 0, 0, 0, 0, 0, 0, 0, 100, 0⟩ 40 7
          = nextId ⟨0, 0, 0, 0, 0, 0, 0, 0, 0, 0, 0, 0, 0, 100, 0⟩ 40 8) :=
  ⟨by decide, c6_clock_backwards_error ⟨0, 0, 0, 0, 0, 0, 0, 0, 0, 0, 0, 0, 0, 100, 0⟩ 40 7 8 (by decide)⟩

/-- C9: on the clock-moved-backward path, `NextId` returns -1 together with
an error and leaves the receiver (including `sequence` and `lastTimestamp`)
exactly unchanged. -/
theorem c9_clock_backwards_state_unchanged (iw : IdWorker) (now tspin : Int)
    (h : now < iw.lastTimestamp) :
    (nextId iw now tspin).1 = -1 ∧
      (nextId iw now tspin).2.1.isSome = true ∧
      (nextId iw now tspin).2.2 = iw := by
  unfold nextId
  rw [if_pos h]
  exact ⟨rfl, rfl, rfl⟩

/-- Witness for C9 at a concrete worker state. -/
theorem c9_clock_backwards_state_unchanged_witness :
    (-3 : Int) < (⟨0, 0, 0, 0, 0, 0, 0, 0, 0, 0, 0, 0, 7, 2, 0⟩ : IdWorker).lastTimestamp ∧
      ((nextId ⟨0, 0, 0, 0, 0, 0, 0, 0, 0, 0, 0, 0, 7, 2, 0⟩ (-3) 0).1 = -1 ∧
        (nextId ⟨0, 0, 0, 0, 0, 0, 0, 0, 0, 0, 0, 0, 7, 2, 0⟩ (-3) 0).2.1.isSome = true ∧
        (nextId ⟨0, 0, 0, 0, 0, 0, 0, 0, 0, 0, 0, 0, 7, 2, 0⟩ (-3) 0).2.2
          = ⟨0, 0, 0, 0, 0, 0, 0, 0, 0, 0, 0, 0, 7, 2, 0⟩) :=
  ⟨by decide, c9_clock_backwards_state_unchanged ⟨0, 0, 0, 0, 0, 0, 0, 0, 0, 0, 0, 0, 7, 2, 0⟩ (-3) 0 (by decide)⟩

/-- C2 counterexample: with the worker constructed by `InitIdWorker 0 0`,
the two successful sequential calls observed at `epoch + 1` ms and at
`epoch + 2^42 - 1` ms (both accepted by the clock check, strictly increasing
observation times) return the same id `4194304`: the 41-bit timestamp field
overflows into the sign bit and the `if id < 0 then id = -id` step folds the
two compositions onto the same value, so the results of a successful
sequential run are neither pairwise distinct nor strictly increasing. -/
theorem c2_counterexample :
    initIdWorker 0 0
        = Except.ok (⟨1463834116272, 5, 5, 31, 31, 12, 12, 17, 22, 4095, 0, 0, 0, -1, 1⟩ : IdWorker) ∧
      (runNextIds (⟨1463834116272, 5, 5, 31, 31, 12, 12, 17, 22, 4095, 0, 0, 0, -1, 1⟩ : IdWorker)
          [(1463834116273, 1463834116274), (5861880627375, 5861880627376)]).1.map Prod.snd
        = [none, none] ∧
      (runNextIds (⟨1463834116272, 5, 5, 31, 31, 12, 12, 17, 22, 4095, 0, 0, 0, -1, 1⟩ : IdWorker)
          [(1463834116273, 1463834116274), (5861880627375, 5861880627376)]).1.map Prod.fst
        = [4194304, 4194304] :=
  ⟨rfl, by decide, by decide⟩

/-- A millisecond timestamp whose delta from the fixed epoch fits the 41-bit
timestamp field (no overflow into the sign bit). -/
abbrev tsOK (t : Int) : Prop := 1463834116272 ≤ t ∧ t < 1463834116272 + 2199023255552

/-- State invariant maintained by `InitIdWorker` and every successful
`NextId` call, for timestamps within the 41-bit budget. -/
abbrev wfIdWorker (iw : IdWorker) : Prop :=
  iw.startTime = 1463834116272 ∧
  iw.timestampLeftShift = 22 ∧
  iw.datacenterIdLeftShift = 17 ∧
  iw.workerIdLeftShift = 12 ∧
  iw.sequenceMask = 4095 ∧
  0 ≤ iw.workerId ∧ iw.workerId ≤ 31 ∧
  0 ≤ iw.datacenterId ∧ iw.datacenterId ≤ 31 ∧
  0 ≤ iw.sequence ∧ iw.sequence ≤ 4095 ∧
  (iw.lastTimestamp = -1 ∨ tsOK iw.lastTimestamp)

/-- The numeric value of the bit-packed id determined by a worker state:
timestamp delta, datacenter id, worker id and sequence in their 41/5/5/12
bit fields. -/
def encodeId (iw : IdWorker) : Int :=
  (iw.lastTimestamp - 1463834116272) * 4194304
    + iw.datacenterId * 131072 + iw.workerId * 4096 + iw.sequence

lemma shl64_22 {x : Int} (h0 : 0 ≤ x) (h1 : x < 2199023255552) :
    shl64 x 22 = toInt64 (x.toNat * 4194304) := by
  unfold shl64
  rw [u64_ofNat h0 (by omega), Nat.shiftLeft_eq]
  have h2 : (2 : Nat) ^ 22 = 4194304 := by norm_num
  rw [h2, Nat.mod_eq_of_lt (by omega)]

lemma shl64_17 {x : Int} (h0 : 0 ≤ x) (h1 : x ≤ 31) :
    shl64 x 17 = toInt64 (x.toNat * 131072) := by
  unfold shl64
  rw [u64_ofNat h0 (by omega), Nat.shiftLeft_eq]
  have h2 : (2 : Nat) ^ 17 = 131072 := by norm_num
  rw [h2, Nat.mod_eq_of_lt (by omega)]

lemma shl64_12 {x : Int} (h0 : 0 ≤ x) (h1 : x ≤ 31) :
    shl64 x 12 = toInt64 (x.toNat * 4096) := by
  unfold shl64
  rw [u64_ofNat h0 (by omega), Nat.shiftLeft_eq]
  have h2 : (2 : Nat) ^ 12 = 4096 := by norm_num
  rw [h2, Nat.mod_eq_of_lt (by omega)]

/-- The sequence update `(sequence + 1) & sequenceMask` with the 12-bit mask:
it increments below the mask and wraps to zero at 4095. -/
lemma goAnd64_seq {q : Int} (h0 : 0 ≤ q) (h1 : q ≤ 4095) :
    goAnd64 (q + 1) 4095 = if q = 4095 then 0 else q + 1 := by
  unfold goAnd64
  have h4095 : u64 4095 = 2 ^ 12 - 1 := by decide
  rw [u64_ofNat (by omega) (by omega), h4095, Nat.and_pow_two_sub_one_eq_mod]
  by_cases hq : q = 4095
  · subst hq
    decide
  · rw [if_neg hq]
    have h3 : (q + 1).toNat % 2 ^ 12 = (q + 1).toNat := Nat.mod_eq_of_lt (by omega)
    rw [h3]
    unfold toInt64
    rw [if_pos (by omega)]
    omega

/-- The bit-packing of in-range fields computes the plain weighted sum, and
that sum is non-negative and below 2^63. -/
lemma pack_eq (δ dc w sq : Int) (hδ0 : 0 ≤ δ) (hδ : δ < 2199023255552)
    (hdc0 : 0 ≤ dc) (hdc : dc ≤ 31) (hw0 : 0 ≤ w) (hw : w ≤ 31)
    (hs0 : 0 ≤ sq) (hs : sq ≤ 4095) :
    goOr64 (goOr64 (goOr64 (shl64 δ 22) (shl64 dc 17)) (shl64 w 12)) sq
        = δ * 4194304 + dc * 131072 + w * 4096 + sq ∧
      0 ≤ δ * 4194304 + dc * 131072 + w * 4096 + sq ∧
      δ * 4194304 + dc * 131072 + w * 4096 + sq < 9223372036854775808 := by
  have h217 : (2 : Nat) ^ 17 = 131072 := by norm_num
  have h212 : (2 : Nat) ^ 12 = 4096 := by norm_num
  have h222 : (2 : Nat) ^ 22 = 4194304 := by norm_num
  refine ⟨?_, by nlinarith, by nlinarith⟩
  rw [shl64_22 hδ0 hδ, shl64_17 hdc0 hdc, shl64_12 hw0 hw]
  unfold goOr64
  have A1 : u64 (toInt64 (δ.toNat * 4194304)) = δ.toNat * 4194304 :=
    u64_toInt64 (by omega)
  have A2 : u64 (toInt64 (dc.toNat * 131072)) = dc.toNat * 131072 :=
    u64_toInt64 (by omega)
  have A3 : u64 (toInt64 (w.toNat * 4096)) = w.toNat * 4096 :=
    u64_toInt64 (by omega)
  have A4 : u64 sq = sq.toNat := u64_ofNat hs0 (by omega)
  rw [A1, A2, A3, A4]
  have o1 : δ.toNat * 4194304 ||| dc.toNat * 131072
      = δ.toNat * 4194304 + dc.toNat * 131072 := by
    have hb : dc.toNat * 131072 < 2 ^ 22 := by omega
    calc δ.toNat * 4194304 ||| dc.toNat * 131072
        = 2 ^ 22 * δ.toNat ||| dc.toNat * 131072 := by rw [h222, Nat.mul_comm]
      _ = 2 ^ 22 * δ.toNat + dc.toNat * 131072 := (Nat.mul_add_lt_is_or hb _).symm
      _ = δ.toNat * 4194304 + dc.toNat * 131072 := by rw [h222, Nat.mul_comm]
  rw [o1]
  have B1 : u64 (toInt64 (δ.toNat * 4194304 + dc.toNat * 131072))
      = δ.toNat * 4194304 + dc.toNat * 131072 := u64_toInt64 (by omega)
  rw [B1]
  have o2 : δ.toNat * 4194304 + dc.toNat * 131072 ||| w.toNat * 4096
      = δ.toNat * 4194304 + dc.toNat * 131072 + w.toNat * 4096 := by
    have hb : w.toNat * 4096 < 2 ^ 17 := by omega
    have hfac : δ.toNat * 4194304 + dc.toNat * 131072
        = 2 ^ 17 * (δ.toNat * 32 + dc.toNat) := by rw [h217]; ring
    calc δ.toNat * 4194304 + dc.toNat * 131072 ||| w.toNat * 4096
        = 2 ^ 17 * (δ.toNat * 32 + dc.toNat) ||| w.toNat * 4096 := by rw [hfac]
      _ = 2 ^ 17 * (δ.toNat * 32 + dc.toNat) + w.toNat * 4096 :=
          (Nat.mul_add_lt_is_or hb _).symm
      _ = δ.toNat * 4194304 + dc.toNat * 131072 + w.toNat * 4096 := by rw [h217]; ring
  rw [o2]
  have B2 : u64 (toInt64 (δ.toNat * 4194304 + dc.toNat * 131072 + w.toNat * 4096))
      = δ.toNat * 4194304 + dc.toNat * 131072 + w.toNat * 4096 := u64_toInt64 (by omega)
  rw [B2]
  have o3 : δ.toNat * 4194304 + dc.toNat * 131072 + w.toNat * 4096 ||| sq.toNat
      = δ.toNat * 4194304 + dc.toNat * 131072 + w.toNat * 4096 + sq.toNat := by
    have hb : sq.toNat < 2 ^ 12 := by omega
    have hfac : δ.toNat * 4194304 + dc.toNat * 131072 + w.toNat * 4096
        = 2 ^ 12 * (δ.toNat * 1024 + dc.toNat * 32 + w.toNat) := by rw [h212]; ring
    calc δ.toNat * 4194304 + dc.toNat * 131072 + w.toNat * 4096 ||| sq.toNat
        = 2 ^ 12 * (δ.toNat * 1024 + dc.toNat * 32 + w.toNat) ||| sq.toNat := by rw [hfac]
      _ = 2 ^ 12 * (δ.toNat * 1024 + dc.toNat * 32 + w.toNat) + sq.toNat :=
          (Nat.mul_add_lt_is_or hb _).symm
      _ = δ.toNat * 4194304 + dc.toNat * 131072 + w.toNat * 4096 + sq.toNat := by
          rw [h212]; ring
  rw [o3]
  unfold toInt64
  rw [if_pos (by omega)]
  push_cast
  omega

/-- One successful `NextId` call within the 41-bit timestamp budget: no
error, the invariant is preserved, the returned id is the packed value of
the updated state, and that packed value strictly exceeds the packed value
of the previous state. -/
lemma nextId_step {iw : IdWorker} {now tspin : Int} (hwf : wfIdWorker iw)
    (hnow : tsOK now) (hspin1 : now < tspin)
    (hspin2 : tspin < 1463834116272 + 2199023255552)
    (hok : ¬ now < iw.lastTimestamp) :
    (nextId iw now tspin).2.1 = none ∧
      wfIdWorker (nextId iw now tspin).2.2 ∧
      (nextId iw now tspin).1 = encodeId (nextId iw now tspin).2.2 ∧
      encodeId iw < encodeId (nextId iw now tspin).2.2 := by
  obtain ⟨hst, h22, h17, h12, hmask, hw0, hw31, hd0, hd31, hs0, hs31, hlast⟩ := hwf
  simp only [nextId]
  rw [if_neg hok, hmask, hst, h22, h17, h12]
  by_cases heq : now = iw.lastTimestamp
  · rw [if_pos heq, goAnd64_seq hs0 hs31]
    by_cases hseq : iw.sequence = 4095
    · rw [if_pos hseq]
      rw [if_pos (rfl : (0 : Int) = 0)]
      dsimp only
      obtain ⟨hpack, hpos, hlt⟩ :=
        pack_eq (tspin - 1463834116272) iw.datacenterId iw.workerId 0
          (by omega) (by omega) hd0 hd31 hw0 hw31 (by omega) (by omega)
      rw [hpack, if_neg (by omega)]
      refine ⟨rfl, ?_, ?_, ?_⟩
      · exact ⟨rfl, rfl, rfl, rfl, rfl, hw0, hw31, hd0, hd31, le_refl 0,
          (show (0 : Int) ≤ 4095 by norm_num),
          Or.inr ⟨(show (1463834116272 : Int) ≤ tspin by omega), hspin2⟩⟩
      · dsimp only [encodeId]
        try omega
      · dsimp only [encodeId]
        try omega
    · rw [if_neg hseq]
      rw [if_neg (by omega : ¬ iw.sequence + 1 = 0)]
      dsimp only
      obtain ⟨hpack, hpos, hlt⟩ :=
        pack_eq (now - 1463834116272) iw.datacenterId iw.workerId (iw.sequence + 1)
          (by omega) (by omega) hd0 hd31 hw0 hw31 (by omega) (by omega)
      rw [hpack, if_neg (by omega)]
      refine ⟨rfl, ?_, ?_, ?_⟩
      · exact ⟨rfl, rfl, rfl, rfl, rfl, hw0, hw31, hd0, hd31,
          (show (0 : Int) ≤ iw.sequence + 1 by omega),
          (show iw.sequence + 1 ≤ 4095 by omega),
          Or.inr ⟨(show (1463834116272 : Int) ≤ now from hnow.1),
            (show now < 1463834116272 + 2199023255552 from hnow.2)⟩⟩
      · dsimp only [encodeId]
        try omega
      · dsimp only [encodeId]
        try omega
  · rw [if_neg heq]
    dsimp only
    obtain ⟨hpack, hpos, hlt⟩ :=
      pack_eq (now - 1463834116272) iw.datacenterId iw.workerId 0
        (by omega) (by omega) hd0 hd31 hw0 hw31 (by omega) (by omega)
    rw [hpack, if_neg (by omega)]
    refine ⟨rfl, ?_, ?_, ?_⟩
    · exact ⟨rfl, rfl, rfl, rfl, rfl, hw0, hw31, hd0, hd31, le_refl 0,
        (show (0 : Int) ≤ 4095 by norm_num),
        Or.inr ⟨(show (1463834116272 : Int) ≤ now from hnow.1),
          (show now < 1463834116272 + 2199023255552 from hnow.2)⟩⟩
    · dsimp only [encodeId]
      try omega
    · dsimp only [encodeId]
      try omega

/-- A successfully constructed worker satisfies the invariant. -/
lemma init_wf {w d : Int} {iw : IdWorker} (h : initIdWorker w d = Except.ok iw) :
    wfIdWorker iw := by
  have hmax : goXor64 (-1) (shl64 (-1) 5) = 31 := by decide
  simp only [initIdWorker, hmax] at h
  split_ifs at h with h1 h2
  cases h
  exact ⟨rfl, rfl, rfl, rfl, (show goXor64 (-1) (shl64 (-1) 12) = 4095 by decide),
    (show (0 : Int) ≤ w by omega), (show w ≤ 31 by omega),
    (show (0 : Int) ≤ d by omega), (show d ≤ 31 by omega),
    le_refl 0, (show (0 : Int) ≤ 4095 by norm_num), Or.inl rfl⟩

/-- Sequential runs from a well-formed state, with every observed time in
the 41-bit budget and every call successful, produce a strictly increasing
id list, all of whose members exceed the packed value of the initial
state. -/
lemma runNextIds_chain (calls : List (Int × Int)) :
    ∀ iw : IdWorker, wfIdWorker iw →
      (∀ c ∈ calls, tsOK c.1 ∧ c.1 < c.2 ∧ c.2 < 1463834116272 + 2199023255552) →
      (∀ r ∈ (runNextIds iw calls).1, r.2 = none) →
      List.Chain' (· < ·) ((runNextIds iw calls).1.map Prod.fst) ∧
        ∀ x ∈ (runNextIds iw calls).1.map Prod.fst, encodeId iw < x := by
  induction calls with
  | nil =>
      intro iw _ _ _
      constructor
      · simp [runNextIds]
      · simp [runNextIds]
  | cons c rest ih =>
      intro iw hwf hcalls herr
      have hc : tsOK c.1 ∧ c.1 < c.2 ∧ c.2 < 1463834116272 + 2199023255552 :=
        hcalls c (List.mem_cons_self c rest)
      have hrun : runNextIds iw (c :: rest)
          = ((((nextId iw c.1 c.2).1, (nextId iw c.1 c.2).2.1)
              :: (runNextIds (nextId iw c.1 c.2).2.2 rest).1),
             (runNextIds (nextId iw c.1 c.2).2.2 rest).2) := rfl
      have herrhead : (nextId iw c.1 c.2).2.1 = none := by
        have := herr ((nextId iw c.1 c.2).1, (nextId iw c.1 c.2).2.1)
          (by rw [hrun]; exact List.mem_cons_self _ _)
        exact this
      have hok : ¬ c.1 < iw.lastTimestamp := by
        intro hlt
        rw [nextId, if_pos hlt] at herrhead
        simp at herrhead
      have hstep := nextId_step hwf hc.1 hc.2.1 hc.2.2 hok
      obtain ⟨-, hwf', hid, hmono⟩ := hstep
      have htail := ih (nextId iw c.1 c.2).2.2 hwf'
        (fun x hx => hcalls x (List.mem_cons_of_mem c hx))
        (fun r hr => herr r (by rw [hrun]; exact List.mem_cons_of_mem _ hr))
      rw [hrun]
      simp only [List.map_cons]
      constructor
      · rw [List.chain'_cons']
        refine ⟨?_, htail.1⟩
        intro y hy
        have hymem : y ∈ (runNextIds (nextId iw c.1 c.2).2.2 rest).1.map Prod.fst :=
          List.mem_of_mem_head? hy
        have := htail.2 y hymem
        omega
      · intro x hx
        rcases List.mem_cons.mp hx with hx1 | hx2
        · subst hx1
          omega
        · have := htail.2 x hx2
          omega

/-- C2 amended: for a worker built by `InitIdWorker`, any sequence of
successful sequential `NextId` calls whose observed times (including the
spin-wait observations) stay within the 41-bit timestamp budget
`[epoch, epoch + 2^41)` yields pairwise-distinct results, and successive
results are strictly increasing in issue order.  (Without the budget bound
the property fails; see the counterexample.) -/
theorem c2_nextId_distinct_increasing_amended (w d : Int) (iw0 : IdWorker)
    (hinit : initIdWorker w d = Except.ok iw0) (calls : List (Int × Int))
    (hcalls : ∀ c ∈ calls, tsOK c.1 ∧ c.1 < c.2 ∧ c.2 < 1463834116272 + 2199023255552)
    (herr : ∀ r ∈ (runNextIds iw0 calls).1, r.2 = none) :
    List.Chain' (· < ·) ((runNextIds iw0 calls).1.map Prod.fst) ∧
      List.Pairwise (· ≠ ·) ((runNextIds iw0 calls).1.map Prod.fst) := by
  have hchain := (runNextIds_chain calls iw0 (init_wf hinit) hcalls herr).1
  refine ⟨hchain, ?_⟩
  have hpw : List.Pairwise (· < ·) ((runNextIds iw0 calls).1.map Prod.fst) :=
    List.chain'_iff_pairwise.mp hchain
  exact hpw.imp ne_of_lt

/-- Witness for the amended C2: a two-call run (same millisecond, so the
second call exercises the sequence increment) from `InitIdWorker 0 0`. -/
theorem c2_nextId_distinct_increasing_amended_witness :
    (∀ c ∈ [((1463834116273 : Int), (1463834116274 : Int)), (1463834116273, 1463834116274)],
        tsOK c.1 ∧ c.1 < c.2 ∧ c.2 < 1463834116272 + 2199023255552) ∧
      (∀ r ∈ (runNextIds (⟨1463834116272, 5, 5, 31, 31, 12, 12, 17, 22, 4095, 0, 0, 0, -1, 1⟩ : IdWorker)
          [(1463834116273, 1463834116274), (1463834116273, 1463834116274)]).1, r.2 = none) ∧
      (List.Chain' (· < ·)
          ((runNextIds (⟨1463834116272, 5, 5, 31, 31, 12, 12, 17, 22, 4095, 0, 0, 0, -1, 1⟩ : IdWorker)
            [(1463834116273, 1463834116274), (1463834116273, 1463834116274)]).1.map Prod.fst) ∧
        List.Pairwise (· ≠ ·)
          ((runNextIds (⟨1463834116272, 5, 5, 31, 31, 12, 12, 17, 22, 4095, 0, 0, 0, -1, 1⟩ : IdWorker)
            [(1463834116273, 1463834116274), (1463834116273, 1463834116274)]).1.map Prod.fst)) :=
  ⟨by decide, by decide,
    c2_nextId_distinct_increasing_amended 0 0
      (⟨1463834116272, 5, 5, 31, 31, 12, 12, 17, 22, 4095, 0, 0, 0, -1, 1⟩ : IdWorker) rfl
      [(1463834116273, 1463834116274), (1463834116273, 1463834116274)]
      (by decide) (by decide)⟩

/-! ## The flow-number generator (tools package)

`GenerateFlowNo` reads the wall clock twice at most: `now` at entry and, on
the sequence-exhaustion path, the time observed when the spin loop exits
(`spin`).  The secure random source is modelled as a list of draws, each
either a 4-byte read or `none` for a read error (the fallback path); the
loop of `generateUniformRandom` returns `none` only in the artificial case
where the finite draw list is exhausted while rejecting. -/

/-- Decimal digit characters of `n`, most significant first, as rendered by
`fmt`'s `%d` verb for a non-negative integer.  The first argument is
recursion fuel; `n + 1` is always sufficient. -/
def decChars : Nat → Nat → List Char
  | 0, _ => []
  | fuel + 1, n =>
      if n < 10 then [Nat.digitChar n]
      else decChars fuel (n / 10) ++ [Nat.digitChar (n % 10)]

/-- Decimal rendering of a natural number. -/
def decStr (n : Nat) : String := ⟨decChars (n + 1) n⟩

/-- Zero-padding to width `w` of a non-negative integer, as rendered by
`fmt.Sprintf` with a `%0wd` verb. -/
def padNum (w : Nat) (n : Nat) : String :=
  (⟨List.replicate (w - (decStr n).length) '0'⟩ : String) ++ decStr n

/-- `fmt.Sprintf("%0wd", i)` for a signed integer: a sign, when negative,
occupies one column of the width. -/
def padInt (w : Nat) (i : Int) : String :=
  if i < 0 then "-" ++ padNum (w - 1) i.natAbs else padNum w i.toNat

/-- `strings.ToUpper`: a rune-by-rune upper-case mapping (Go maps each rune
through `unicode.ToUpper`; the embedding maps each character through
`Char.toUpper` — both are one-to-one on characters, which is all the format
claims depend on). -/
def goToUpper (s : String) : String := ⟨s.data.map Char.toUpper⟩

/-- An observed wall-clock instant: the calendar fields used by
`Format("20060102150405")`, the nanosecond-of-second used for the
hundred-millisecond field, and `UnixNano()`. -/
structure GoTime where
  year : Nat
  month : Nat
  day : Nat
  hour : Nat
  minute : Nat
  second : Nat
  nano : Nat
  unixNano : Int
deriving DecidableEq

/-- Calendar fields within the ranges Go's time formatting renders at fixed
width (any real `time.Time` between the years 0 and 9999 satisfies it). -/
abbrev validTime (t : GoTime) : Prop :=
  t.year ≤ 9999 ∧ t.month ≤ 99 ∧ t.day ≤ 99 ∧ t.hour ≤ 99 ∧ t.minute ≤ 99 ∧
    t.second ≤ 99 ∧ t.nano < 1000000000

/-- `now.Format("20060102150405")`: 4-digit year then 2-digit month, day,
hour, minute and second. -/
def goFormatDateTime (t : GoTime) : String :=
  padNum 4 t.year ++ padNum 2 t.month ++ padNum 2 t.day ++ padNum 2 t.hour
    ++ padNum 2 t.minute ++ padNum 2 t.second

/-- The package-level mutable state of the generator. -/
structure FlowState where
  sequenceCounter : Int
  lastTimestamp : Int
deriving DecidableEq

/-- The rejection threshold `(4294967295 / max) * max` (Go integer
division). -/
def rejectionLimit (maxv : Int) : Int := 4294967295 / maxv * maxv

/-- The rejection-sampling loop of `generateUniformRandom`: each draw is a
4-byte read (combined big-endian into a 32-bit value) or a read error, which
takes the time-derived fallback `int(tf.UnixNano() % max)`. -/
def gurLoop (limit maxv : Int) (tf : GoTime) :
    List (Option (Fin 256 × Fin 256 × Fin 256 × Fin 256)) → Option Int
  | [] => none
  | none :: _ => some (tf.unixNano.tmod maxv)
  | some (b0, b1, b2, b3) :: rest =>
      let randomValue : Nat := b0.val <<< 24 ||| b1.val <<< 16 ||| b2.val <<< 8 ||| b3.val
      if randomValue < limit.toNat % 4294967296 then
        some ((randomValue % (maxv.toNat % 4294967296) : Nat) : Int)
      else gurLoop limit maxv tf rest

/-- `generateUniformRandom(max)`: zero for a non-positive bound, otherwise
rejection sampling below the largest multiple of `max` representable in 32
bits (the `% 4294967296` reductions model Go's `uint32(...)` conversions). -/
def generateUniformRandom (maxv : Int)
    (draws : List (Option (Fin 256 × Fin 256 × Fin 256 × Fin 256))) (tf : GoTime) :
    Option Int :=
  if maxv ≤ 0 then some 0
  else gurLoop (rejectionLimit maxv) maxv tf draws

/-- `GenerateFlowNo`: upper-cased prefix, 14-digit date/time, 2-digit
hundred-millisecond field, 3-digit sequence and 3-digit random suffix.  The
sequence counter is incremented within the same 100 ms bucket and reset on a
new bucket; at 1000 the generator spins to the next bucket (the re-observed
time is `spin`) and resets. -/
def generateFlowNo (st : FlowState) (pfx : String) (now spin : GoTime)
    (draws : List (Option (Fin 256 × Fin 256 × Fin 256 × Fin 256))) (tf : GoTime) :
    Option (String × FlowState) :=
  let pfxU := goToUpper pfx
  let dateStr := goFormatDateTime now
  let hundredMillis := now.nano / 1000000 / 10
  let hundredMillisStr := padNum 2 hundredMillis
  let currentTimestamp := now.unixNano.tdiv 100000000
  let step :=
    if currentTimestamp ≠ st.lastTimestamp then
      (dateStr, hundredMillisStr, (0 : Int),
        ({ sequenceCounter := 0, lastTimestamp := currentTimestamp } : FlowState))
    else
      let c := wrap64 (st.sequenceCounter + 1)
      if 1000 ≤ c then
        let ct2 := spin.unixNano.tdiv 100000000
        (goFormatDateTime spin, padNum 2 (spin.nano / 1000000 / 10), (0 : Int),
          ({ sequenceCounter := 0, lastTimestamp := ct2 } : FlowState))
      else
        (dateStr, hundredMillisStr, c,
          ({ sequenceCounter := c, lastTimestamp := st.lastTimestamp } : FlowState))
  match generateUniformRandom 1000 draws tf with
  | none => none
  | some r =>
      some (pfxU ++ step.1 ++ step.2.1 ++ padInt 3 step.2.2.1 ++ padInt 3 r, step.2.2.2)

lemma decChars_length_le :
    ∀ fuel n k : Nat, n < fuel → 0 < k → n < 10 ^ k → (decChars fuel n).length ≤ k := by
  intro fuel
  induction fuel with
  | zero => intro n k h; omega
  | succ fuel ih =>
      intro n k hn hk hnk
      simp only [decChars]
      split
      · simp
        omega
      · rename_i h10
        rw [List.length_append, List.length_singleton]
        have hk2 : 2 ≤ k := by
          by_contra hc
          have hk1 : k = 1 := by omega
          subst hk1
          simp only [pow_one] at hnk
          omega
        have hdiv : n / 10 < 10 ^ (k - 1) := by
          have hpow : 10 ^ k = 10 ^ (k - 1) * 10 := by
            rw [← pow_succ]
            congr 1
            omega
          rw [hpow] at hnk
          exact (Nat.div_lt_iff_lt_mul (by norm_num)).mpr hnk
        have := ih (n / 10) (k - 1) (by omega) (by omega) hdiv
        omega

lemma decStr_length_le {n k : Nat} (hk : 0 < k) (h : n < 10 ^ k) :
    (decStr n).length ≤ k :=
  decChars_length_le (n + 1) n k (by omega) hk h

lemma padNum_length {w n : Nat} (h : (decStr n).length ≤ w) :
    (padNum w n).length = w := by
  unfold padNum
  rw [String.length_append]
  have h1 : (⟨List.replicate (w - (decStr n).length) '0'⟩ : String).length
      = w - (decStr n).length := by
    show (List.replicate (w - (decStr n).length) '0').length = _
    exact List.length_replicate _ _
  omega

lemma padNum2_length {n : Nat} (h : n ≤ 99) : (padNum 2 n).length = 2 :=
  padNum_length (decStr_length_le (by norm_num)
    (by
      have h100 : (10 : Nat) ^ 2 = 100 := by norm_num
      omega))

lemma padNum4_length {n : Nat} (h : n ≤ 9999) : (padNum 4 n).length = 4 :=
  padNum_length (decStr_length_le (by norm_num)
    (by
      have h10000 : (10 : Nat) ^ 4 = 10000 := by norm_num
      omega))

lemma padInt3_length {i : Int} (h0 : 0 ≤ i) (h1 : i < 1000) :
    (padInt 3 i).length = 3 := by
  unfold padInt
  rw [if_neg (by omega)]
  exact padNum_length (decStr_length_le (by norm_num)
    (by
      have h1000 : (10 : Nat) ^ 3 = 1000 := by norm_num
      omega))

lemma goFormatDateTime_length {t : GoTime} (h : validTime t) :
    (goFormatDateTime t).length = 14 := by
  obtain ⟨hy, hmo, hd, hh, hmi, hs, -⟩ := h
  unfold goFormatDateTime
  rw [String.length_append, String.length_append, String.length_append,
    String.length_append, String.length_append,
    padNum4_length hy, padNum2_length hmo, padNum2_length hd,
    padNum2_length hh, padNum2_length hmi, padNum2_length hs]

lemma goToUpper_length (s : String) : (goToUpper s).length = s.length := by
  show (s.data.map Char.toUpper).length = s.data.length
  exact List.length_map _ _

lemma gurLoop_1000_range :
    ∀ (draws : List (Option (Fin 256 × Fin 256 × Fin 256 × Fin 256))) (tf : GoTime)
      (r : Int), 0 ≤ tf.unixNano → gurLoop 4294967000 1000 tf draws = some r →
      0 ≤ r ∧ r < 1000 := by
  intro draws
  induction draws with
  | nil =>
      intro tf r _ h
      simp [gurLoop] at h
  | cons a rest ih =>
      intro tf r htf h
      match a with
      | none =>
          simp only [gurLoop, Option.some.injEq] at h
          subst h
          exact ⟨Int.tmod_nonneg 1000 htf, Int.tmod_lt_of_pos tf.unixNano (by norm_num)⟩
      | some (b0, b1, b2, b3) =>
          simp only [gurLoop] at h
          split at h
          · rw [Option.some.injEq] at h
            subst h
            have hmod : ((1000 : Int).toNat % 4294967296) = 1000 := by decide
            rw [hmod]
            constructor
            · positivity
            · exact_mod_cast Nat.mod_lt _ (by norm_num)
          · exact ih tf r htf h

lemma generateUniformRandom_1000_range {draws : List (Option (Fin 256 × Fin 256 × Fin 256 × Fin 256))}
    {tf : GoTime} {r : Int} (htf : 0 ≤ tf.unixNano)
    (h : generateUniformRandom 1000 draws tf = some r) : 0 ≤ r ∧ r < 1000 := by
  unfold generateUniformRandom at h
  rw [if_neg (by norm_num)] at h
  have hlim : rejectionLimit 1000 = 4294967000 := by decide
  rw [hlim] at h
  exact gurLoop_1000_range draws tf r htf h

/-- Each residue below 1000 has exactly 4294967 accepted preimages among the
2^32 possible 32-bit draws. -/
lemma accept_count {res : Nat} (hres : res < 1000) :
    ((Finset.range 4294967296).filter
        (fun v => v < (rejectionLimit 1000).toNat ∧ v % 1000 = res)).card = 4294967 := by
  have hlim : (rejectionLimit 1000).toNat = 4294967000 := by decide
  simp only [hlim]
  have himg : (Finset.range 4294967296).filter
        (fun v => v < 4294967000 ∧ v % 1000 = res)
      = (Finset.range 4294967).image (fun i => 1000 * i + res) := by
    ext v
    simp only [Finset.mem_filter, Finset.mem_range, Finset.mem_image]
    constructor
    · rintro ⟨h32, hv, hmod⟩
      exact ⟨v / 1000, by omega, by omega⟩
    · rintro ⟨i, hi, rfl⟩
      refine ⟨by omega, by omega, by omega⟩
  rw [himg, Finset.card_image_of_injective _ (fun a b hab => by omega),
    Finset.card_range]

/-- C7: `generateUniformRandom(1000)` rejects at the threshold
`(4294967295 / 1000) * 1000 = 4294967000`, the largest multiple of 1000 not
exceeding `2^32 - 1`; every value it returns (accepted draw or time-derived
fallback under a non-negative clock) lies in `[0, 1000)`; and every residue
below 1000 has exactly 4294967 accepted 32-bit preimages, an exactly uniform
split of the accepted draws. -/
theorem c7_uniform_random_rejection
    (draws : List (Option (Fin 256 × Fin 256 × Fin 256 × Fin 256))) (tf : GoTime)
    (r : Int) (res : Nat)
    (h : generateUniformRandom 1000 draws tf = some r)
    (htf : 0 ≤ tf.unixNano) (hres : res < 1000) :
    rejectionLimit 1000 = 4294967000 ∧
      (1000 : Int) ∣ rejectionLimit 1000 ∧
      4294967295 - rejectionLimit 1000 < 1000 ∧
      (0 ≤ r ∧ r < 1000) ∧
      ((Finset.range 4294967296).filter
          (fun v => v < (rejectionLimit 1000).toNat ∧ v % 1000 = res)).card = 4294967 :=
  ⟨by decide, ⟨4294967, by decide⟩, by decide,
    generateUniformRandom_1000_range htf h, accept_count hres⟩

/-- Witness for C7: a single accepted draw with value 5, residue 7. -/
theorem c7_uniform_random_rejection_witness :
    generateUniformRandom 1000 [some ((0 : Fin 256), (0 : Fin 256), (0 : Fin 256), (5 : Fin 256))]
        (⟨0, 0, 0, 0, 0, 0, 0, 0⟩ : GoTime) = some 5 ∧
      (0 : Int) ≤ (⟨0, 0, 0, 0, 0, 0, 0, 0⟩ : GoTime).unixNano ∧ (7 : Nat) < 1000 ∧
      (rejectionLimit 1000 = 4294967000 ∧
        (1000 : Int) ∣ rejectionLimit 1000 ∧
        4294967295 - rejectionLimit 1000 < 1000 ∧
        ((0 : Int) ≤ 5 ∧ (5 : Int) < 1000) ∧
        ((Finset.range 4294967296).filter
            (fun v => v < (rejectionLimit 1000).toNat ∧ v % 1000 = 7)).card = 4294967) :=
  ⟨by decide, by decide, by decide,
    c7_uniform_random_rejection
      [some ((0 : Fin 256), (0 : Fin 256), (0 : Fin 256), (5 : Fin 256))]
      (⟨0, 0, 0, 0, 0, 0, 0, 0⟩ : GoTime) 5 7 (by decide) (by decide) (by decide)⟩

/-- C5: whenever `GenerateFlowNo` returns (for any prefix, any in-range
observed times, a non-negative fallback clock and any draw sequence that
resolves), the output is the upper-cased prefix followed by a 14-character
date/time, a 2-character hundred-millisecond field, a 3-character zero-padded
sequence and a 3-character zero-padded random suffix, with no separators, so
its length is exactly the prefix length plus 22 — on every path, including
the sequence-exhaustion spin path and the random-source fallback path. -/
theorem c5_flowNo_format (st : FlowState) (pfx : String) (now spin tf : GoTime)
    (draws : List (Option (Fin 256 × Fin 256 × Fin 256 × Fin 256)))
    (out : String) (st' : FlowState)
    (hwf : 0 ≤ st.sequenceCounter ∧ st.sequenceCounter ≤ 999)
    (hnow : validTime now) (hspin : validTime spin) (htf : 0 ≤ tf.unixNano)
    (h : generateFlowNo st pfx now spin draws tf = some (out, st')) :
    out.length = pfx.length + 22 ∧
      ∃ d hm sq rd, out = goToUpper pfx ++ d ++ hm ++ sq ++ rd ∧
        d.length = 14 ∧ hm.length = 2 ∧ sq.length = 3 ∧ rd.length = 3 := by
  rcases hr : generateUniformRandom 1000 draws tf with _ | r
  · rw [generateFlowNo, hr] at h
    simp at h
  · obtain ⟨hr0, hr1⟩ := generateUniformRandom_1000_range htf hr
    rw [generateFlowNo, hr] at h
    simp only [Option.some.injEq, Prod.mk.injEq] at h
    obtain ⟨hout, -⟩ := h
    subst hout
    by_cases hts : now.unixNano.tdiv 100000000 ≠ st.lastTimestamp
    · rw [if_pos hts]
      dsimp only
      refine ⟨?_, goFormatDateTime now, padNum 2 (now.nano / 1000000 / 10),
        padInt 3 0, padInt 3 r, rfl, goFormatDateTime_length hnow,
        padNum2_length (by omega), padInt3_length (by norm_num) (by norm_num),
        padInt3_length hr0 hr1⟩
      rw [String.length_append, String.length_append, String.length_append,
        String.length_append, goToUpper_length, goFormatDateTime_length hnow,
        padNum2_length (by omega), padInt3_length (by norm_num) (by norm_num),
        padInt3_length hr0 hr1]
    · rw [if_neg hts]
      have hc : wrap64 (st.sequenceCounter + 1) = st.sequenceCounter + 1 :=
        wrap64_eq_self ⟨by omega, by omega⟩
      rw [hc]
      by_cases hb : (1000 : Int) ≤ st.sequenceCounter + 1
      · rw [if_pos hb]
        dsimp only
        refine ⟨?_, goFormatDateTime spin, padNum 2 (spin.nano / 1000000 / 10),
          padInt 3 0, padInt 3 r, rfl, goFormatDateTime_length hspin,
          padNum2_length (by omega), padInt3_length (by norm_num) (by norm_num),
          padInt3_length hr0 hr1⟩
        rw [String.length_append, String.length_append, String.length_append,
          String.length_append, goToUpper_length, goFormatDateTime_length hspin,
          padNum2_length (by omega), padInt3_length (by norm_num) (by norm_num),
          padInt3_length hr0 hr1]
      · rw [if_neg hb]
        dsimp only
        refine ⟨?_, goFormatDateTime now, padNum 2 (now.nano / 1000000 / 10),
          padInt 3 (st.sequenceCounter + 1), padInt 3 r, rfl,
          goFormatDateTime_length hnow, padNum2_length (by omega),
          padInt3_length (by omega) (by omega), padInt3_length hr0 hr1⟩
        rw [String.length_append, String.length_append, String.length_append,
          String.length_append, goToUpper_length, goFormatDateTime_length hnow,
          padNum2_length (by omega), padInt3_length (by omega) (by omega),
          padInt3_length hr0 hr1]

/-- Witness for C5: a concrete generation from the initial package state
with prefix "sf", one accepted random draw of value 1. -/
theorem c5_flowNo_format_witness :
    generateFlowNo ⟨0, 0⟩ "sf" ⟨2024, 1, 2, 3, 4, 5, 123456789, 200000000⟩
        ⟨2024, 1, 2, 3, 4, 5, 123456789, 200000000⟩
        [some ((0 : Fin 256), (0 : Fin 256), (0 : Fin 256), (1 : Fin 256))]
        ⟨2024, 1, 2, 3, 4, 5, 123456789, 200000000⟩
      = some ("SF2024010203040512000001", ⟨0, 2⟩) ∧
      (("SF2024010203040512000001" : String).length = ("sf" : String).length + 22 ∧
        ∃ d hm sq rd,
          ("SF2024010203040512000001" : String) = goToUpper "sf" ++ d ++ hm ++ sq ++ rd ∧
          d.length = 14 ∧ hm.length = 2 ∧ sq.length = 3 ∧ rd.length = 3) :=
  ⟨by decide,
    c5_flowNo_format ⟨0, 0⟩ "sf" ⟨2024, 1, 2, 3, 4, 5, 123456789, 200000000⟩
      ⟨2024, 1, 2, 3, 4, 5, 123456789, 200000000⟩
      ⟨2024, 1, 2, 3, 4, 5, 123456789, 200000000⟩
      [some ((0 : Fin 256), (0 : Fin 256), (0 : Fin 256), (1 : Fin 256))]
      "SF2024010203040512000001" ⟨0, 2⟩
      (by decide) (by decide) (by decide) (by decide) (by decide)⟩

end Kitex

